import Mathlib

/-!
Shallow embedding of the `Arc<T>` / `Weak<T>` reference-counting pointer
from `src/lib.rs`, together with proofs of its specification.

The source is a sequential-semantics embedding: each Rust method that
performs one atomic read-modify-write on the shared control block is
modelled as a pure function from the control block state to a result
carrying the post-state.  Compare-and-swap retry loops (`upgrade`,
`downgrade`) succeed on their first attempt in the absence of
interference, so they are embedded as the straight-line success path
guarded exactly as in the source.  `usize` arithmetic is `Nat` with
explicit reduction modulo `2 ^ 64` where the source's `fetch_add` /
`fetch_sub` / CAS increments can wrap.
-/

set_option autoImplicit false
set_option maxHeartbeats 1000000

namespace RustArc

/-- Numeric value of `usize::MAX` on a 64-bit target. -/
def usizeMax : Nat := 18446744073709551615

/-- Wrap modulus `2 ^ 64`: `usize` arithmetic wraps modulo this. -/
def USIZE : Nat := 18446744073709551616

/-- The control block, mirroring `struct Data<T>` of `src/lib.rs`:
`arc_count` is the number of `Arc`s, `alloc_count` the number of `Weak`s
plus 1 representing all of the `Arc`s.  The payload field models the
`UnsafeCell<ManuallyDrop<T>>` slot: `some v` while the slot holds a live
value, `none` once `ManuallyDrop::drop` has destroyed it in place. -/
structure Data (T : Type) where
  arc_count : Nat
  alloc_count : Nat
  data : Option T
deriving DecidableEq

/-- Result of a handle-producing operation (`Arc::clone`, `Weak::clone`,
`Arc::downgrade`): either a new handle on the post-state control block,
or a call to `std::process::abort`. -/
inductive Res (T : Type) where
  | ok (post : Data T)
  | abort
deriving DecidableEq

/-- Result of `Weak::upgrade`.  `success` carries the post-state after the
winning compare-and-swap; `fail` is the `None` return and carries the
(unchanged) control block, since that path performs only a load;
`panicked` is a failure of the `assert!` in the loop body.  `aborted` is
never produced by `upgrade` (the source calls no `abort()` there); the
constructor exists so that statements comparing upgrade's overflow policy
with the abort-based clone paths can be expressed. -/
inductive UpResult (T : Type) where
  | success (post : Data T)
  | fail (post : Data T)
  | panicked
  | aborted
deriving DecidableEq

/-- Result of `Weak::drop`: either the control block survives with a
decremented `alloc_count`, or this was the last allocation unit and the
backing memory of the control block is freed. -/
inductive WDropResult (T : Type) where
  | live (post : Data T)
  | freed
deriving DecidableEq

/-- Result of `Arc::drop`: `live` when other strong handles remain (only
`arc_count` changed); `destroyed` when this was the last strong handle,
the payload was destroyed, and the implicit weak unit was released but
the block survives; `freedAll` when additionally that implicit unit was
the last one and the control block memory was freed too. -/
inductive ADropResult (T : Type) where
  | live (post : Data T)
  | destroyed (post : Data T)
  | freedAll
deriving DecidableEq

/-- Embedding of `Arc::new` (src/lib.rs:80-89): fresh control block with
`arc_count = 1`, `alloc_count = 1` and the payload initialized from the
argument; the returned strong handle points at it. -/
def Arc.new {T : Type} (v : T) : Data T :=
  { arc_count := 1, alloc_count := 1, data := Option.some v }

/-- Embedding of `Deref for Arc` (src/lib.rs:114-120): read the payload slot of the
control block the handle points at. -/
def Arc.deref {T : Type} (d : Data T) : Option T :=
  d.data

/-- Embedding of `Clone for Arc` (src/lib.rs:122-129): `fetch_add(1, Relaxed)` on
`arc_count` (wrapping), then `abort()` if the pre-increment value
exceeded `usize::MAX / 2`. -/
def Arc.clone {T : Type} (d : Data T) : Res T :=
  let pre := d.arc_count
  let post : Data T := { d with arc_count := (pre + 1) % USIZE }
  if usizeMax / 2 < pre then Res.abort else Res.ok post

/-- Embedding of `Clone for Weak` (src/lib.rs:57-64): `fetch_add(1, Relaxed)` on
`alloc_count` (wrapping), then `abort()` if the pre-increment value
exceeded `usize::MAX / 2`. -/
def Weak.clone {T : Type} (d : Data T) : Res T :=
  let pre := d.alloc_count
  let post : Data T := { d with alloc_count := (pre + 1) % USIZE }
  if usizeMax / 2 < pre then Res.abort else Res.ok post

/-- Embedding of `Arc::downgrade` (src/lib.rs:91-104): compare-and-swap retry loop
taking `alloc_count` from `n` to `n + 1`; without interference the CAS
succeeds at the first observed value, so the embedding is the success
path.  The source has no overflow guard on this path; the increment
wraps modulo `2 ^ 64`. -/
def Arc.downgrade {T : Type} (d : Data T) : Res T :=
  let n := d.alloc_count
  Res.ok { d with alloc_count := (n + 1) % USIZE }

/-- Embedding of `Weak::upgrade` (src/lib.rs:27-47): load `arc_count`; return `None`
if it is zero; `assert!(n <= usize::MAX / 2)` (a panic on failure, not
an abort); otherwise compare-and-swap `n` to `n + 1`, which succeeds
without interference, and return a new strong handle. -/
def Weak.upgrade {T : Type} (d : Data T) : UpResult T :=
  let n := d.arc_count
  if n = 0 then UpResult.fail d
  else if usizeMax / 2 < n then UpResult.panicked
  else UpResult.success { d with arc_count := n + 1 }

/-- Embedding of `Drop for Weak` (src/lib.rs:66-73): `fetch_sub(1, Release)` on
`alloc_count`; if the pre-decrement value was 1, acquire fence and free
the control block's backing memory (`drop(Box::from_raw(...))`). -/
def Weak.drop {T : Type} (d : Data T) : WDropResult T :=
  let pre := d.alloc_count
  if pre = 1 then WDropResult.freed
  else WDropResult.live { d with alloc_count := (pre + (USIZE - 1)) % USIZE }

/-- Embedding of `Drop for Arc` (src/lib.rs:131-141): `fetch_sub(1, Release)` on
`arc_count`; if the pre-decrement value was 1, acquire fence,
`ManuallyDrop::drop` the payload in place, then drop the implicit
`Weak { ptr }`, i.e. run `Weak::drop` on the block. -/
def Arc.drop {T : Type} (d : Data T) : ADropResult T :=
  let pre := d.arc_count
  if pre = 1 then
    let destroyedBlock : Data T :=
      { d with arc_count := 0, data := Option.none }
    match Weak.drop destroyedBlock with
    | WDropResult.freed => ADropResult.freedAll
    | WDropResult.live post => ADropResult.destroyed post
  else ADropResult.live { d with arc_count := (pre + (USIZE - 1)) % USIZE }

/-! ### Lifecycle state machine

To state trace properties (one payload destruction, one memory free) we
run the embedded operations inside a small system: a count of live
strong handles, a count of live weak handles, the shared control block
(`none` once its memory has been freed), and event counters recording
how many times the payload's destructor ran and how many times the
block's memory was freed.  An operation is enabled only when a handle of
the corresponding kind is live; a trace dies (returns `none`) when an
operation is not enabled, or when the process would `abort` or panic. -/

/-- One API call on some live handle. -/
inductive Op where
  | cloneS
  | dropS
  | downgradeOp
  | cloneW
  | dropW
  | upgradeOp
deriving DecidableEq

/-- System state: live handle counts, the control block (if not yet
freed), and the two event counters. -/
structure Sys (T : Type) where
  strongs : Nat
  weaks : Nat
  block : Option (Data T)
  drops : Nat
  frees : Nat
deriving DecidableEq

/-- State right after `Arc::new v`: one strong handle, no weak handles,
no destructor run, no free. -/
def init {T : Type} (v : T) : Sys T :=
  { strongs := 1
    weaks := 0
    block := Option.some (Arc.new v)
    drops := 0
    frees := 0 }

/-- One step of the system: run the embedded operation of `o` on the
control block and account for handles created/destroyed and for the
destruction/free events it performs. -/
def step {T : Type} (s : Sys T) (o : Op) : Option (Sys T) :=
  match s.block with
  | Option.none => Option.none
  | Option.some d =>
    match o with
    | Op.cloneS =>
      if s.strongs = 0 then Option.none else
      match Arc.clone d with
      | Res.ok d2 =>
        Option.some { s with strongs := s.strongs + 1, block := Option.some d2 }
      | Res.abort => Option.none
    | Op.dropS =>
      if s.strongs = 0 then Option.none else
      match Arc.drop d with
      | ADropResult.live d2 =>
        Option.some { s with strongs := s.strongs - 1, block := Option.some d2 }
      | ADropResult.destroyed d2 =>
        Option.some { s with
          strongs := s.strongs - 1
          block := Option.some d2
          drops := s.drops + 1 }
      | ADropResult.freedAll =>
        Option.some { s with
          strongs := s.strongs - 1
          block := Option.none
          drops := s.drops + 1
          frees := s.frees + 1 }
    | Op.downgradeOp =>
      if s.strongs = 0 then Option.none else
      match Arc.downgrade d with
      | Res.ok d2 =>
        Option.some { s with weaks := s.weaks + 1, block := Option.some d2 }
      | Res.abort => Option.none
    | Op.cloneW =>
      if s.weaks = 0 then Option.none else
      match Weak.clone d with
      | Res.ok d2 =>
        Option.some { s with weaks := s.weaks + 1, block := Option.some d2 }
      | Res.abort => Option.none
    | Op.dropW =>
      if s.weaks = 0 then Option.none else
      match Weak.drop d with
      | WDropResult.live d2 =>
        Option.some { s with weaks := s.weaks - 1, block := Option.some d2 }
      | WDropResult.freed =>
        Option.some { s with
          weaks := s.weaks - 1
          block := Option.none
          frees := s.frees + 1 }
    | Op.upgradeOp =>
      if s.weaks = 0 then Option.none else
      match Weak.upgrade d with
      | UpResult.success d2 =>
        Option.some { s with strongs := s.strongs + 1, block := Option.some d2 }
      | UpResult.fail d2 =>
        Option.some { s with block := Option.some d2 }
      | UpResult.panicked => Option.none
      | UpResult.aborted => Option.none

/-- Run a finite sequence of operations. -/
def exec {T : Type} : List Op → Sys T → Option (Sys T)
  | [], s => Option.some s
  | o :: os, s =>
    match step s o with
    | Option.some s2 => exec os s2
    | Option.none => Option.none

/-- The reachable-state invariant of the lifecycle machine, for a block
constructed from value `v`.  Three phases: strong handles alive (payload
live, `arc_count` matches the strong handles, `alloc_count` carries the
implicit `+1`); payload destroyed but weak handles keep the block alive;
everything gone and the block freed.  The event counters record that the
destructor runs exactly at the first transition and the free exactly at
the second. -/
def Inv {T : Type} (v : T) (s : Sys T) : Prop :=
  (∃ k w, k + 1 ≤ usizeMax / 2 + 1 ∧ w + 1 ≤ usizeMax ∧
    s = { strongs := k + 1
          weaks := w
          block := Option.some
            { arc_count := k + 1, alloc_count := w + 1, data := Option.some v }
          drops := 0
          frees := 0 })
  ∨ (∃ w, w + 1 ≤ usizeMax ∧
    s = { strongs := 0
          weaks := w + 1
          block := Option.some
            { arc_count := 0, alloc_count := w + 1, data := Option.none }
          drops := 1
          frees := 0 })
  ∨ s = { strongs := 0, weaks := 0, block := Option.none, drops := 1, frees := 1 }


theorem wrap_succ {n : Nat} (h : n + 1 < USIZE) : (n + 1) % USIZE = n + 1 :=
  Nat.mod_eq_of_lt h

theorem wrap_pred {n : Nat} (h1 : 1 ≤ n) (h2 : n ≤ USIZE) :
    (n + (USIZE - 1)) % USIZE = n - 1 := by
  unfold USIZE at h2 ⊢
  omega

theorem step_inv {T : Type} (v : T) (s s2 : Sys T) (o : Op)
    (hw : o = Op.downgradeOp → s.weaks + 2 ≤ usizeMax)
    (hInv : Inv v s) (h : step s o = Option.some s2) :
    Inv v s2 ∧ s2.weaks ≤ s.weaks + 1 := by
  have hval : usizeMax = 18446744073709551615 := rfl
  have hU : USIZE = 18446744073709551616 := rfl
  rcases hInv with ⟨k, w, hk, hwB, rfl⟩ | ⟨w, hwB, rfl⟩ | rfl
  · -- phase 1: k+1 strong handles, w weak handles, payload live
    cases o
    case cloneS =>
      simp only [step, Arc.clone] at h
      rw [if_neg (by omega : ¬ (k + 1 = 0))] at h
      by_cases hg : usizeMax / 2 < k + 1
      · rw [if_pos hg] at h
        simp at h
      · rw [if_neg hg] at h
        simp only [Option.some.injEq] at h
        subst h
        refine ⟨Or.inl ⟨k + 1, w, by omega, by omega, ?_⟩, by dsimp only; omega⟩
        rw [wrap_succ (by omega)]
    case dropS =>
      simp only [step, Arc.drop, Weak.drop] at h
      rw [if_neg (by omega : ¬ (k + 1 = 0))] at h
      by_cases hone : k + 1 = 1
      · rw [if_pos hone] at h
        by_cases hlast : w + 1 = 1
        · rw [if_pos hlast] at h
          simp only [Option.some.injEq] at h
          subst h
          refine ⟨Or.inr (Or.inr ?_), by dsimp only; omega⟩
          simp only [Sys.mk.injEq, eq_self_iff_true, and_true, true_and]
          all_goals omega
        · rw [if_neg hlast] at h
          simp only [Option.some.injEq] at h
          subst h
          refine ⟨Or.inr (Or.inl ⟨w - 1, by omega, ?_⟩), by dsimp only; omega⟩
          rw [wrap_pred (by omega) (by omega)]
          simp only [Sys.mk.injEq, Data.mk.injEq, Option.some.injEq,
            eq_self_iff_true, and_true, true_and, and_self]
          all_goals omega
      · rw [if_neg hone] at h
        simp only [Option.some.injEq] at h
        subst h
        refine ⟨Or.inl ⟨k - 1, w, by omega, by omega, ?_⟩, by dsimp only; omega⟩
        rw [wrap_pred (by omega) (by omega)]
        simp only [Sys.mk.injEq, Data.mk.injEq, Option.some.injEq,
          eq_self_iff_true, and_true, true_and, and_self]
        all_goals omega
    case downgradeOp =>
      have hw2 : w + 2 ≤ usizeMax := hw rfl
      simp only [step, Arc.downgrade] at h
      rw [if_neg (by omega : ¬ (k + 1 = 0))] at h
      simp only [Option.some.injEq] at h
      subst h
      refine ⟨Or.inl ⟨k, w + 1, by omega, by omega, ?_⟩, by dsimp only; omega⟩
      rw [wrap_succ (by omega)]
    case cloneW =>
      simp only [step, Weak.clone] at h
      by_cases hz : w = 0
      · rw [if_pos hz] at h
        simp at h
      · rw [if_neg hz] at h
        by_cases hg : usizeMax / 2 < w + 1
        · rw [if_pos hg] at h
          simp at h
        · rw [if_neg hg] at h
          simp only [Option.some.injEq] at h
          subst h
          refine ⟨Or.inl ⟨k, w + 1, by omega, by omega, ?_⟩, by dsimp only; omega⟩
          rw [wrap_succ (by omega)]
    case dropW =>
      simp only [step, Weak.drop] at h
      by_cases hz : w = 0
      · rw [if_pos hz] at h
        simp at h
      · rw [if_neg hz] at h
        rw [if_neg (by omega : ¬ (w + 1 = 1))] at h
        simp only [Option.some.injEq] at h
        subst h
        refine ⟨Or.inl ⟨k, w - 1, by omega, by omega, ?_⟩, by dsimp only; omega⟩
        rw [wrap_pred (by omega) (by omega)]
        simp only [Sys.mk.injEq, Data.mk.injEq, Option.some.injEq,
          eq_self_iff_true, and_true, true_and, and_self]
        all_goals omega
    case upgradeOp =>
      simp only [step, Weak.upgrade] at h
      by_cases hz : w = 0
      · rw [if_pos hz] at h
        simp at h
      · rw [if_neg hz] at h
        rw [if_neg (by omega : ¬ (k + 1 = 0))] at h
        by_cases hg : usizeMax / 2 < k + 1
        · rw [if_pos hg] at h
          simp at h
        · rw [if_neg hg] at h
          simp only [Option.some.injEq] at h
          subst h
          exact ⟨Or.inl ⟨k + 1, w, by omega, by omega, rfl⟩, by dsimp only; omega⟩
  · -- phase 2: no strong handles, w+1 weak handles, payload destroyed
    cases o
    case cloneS => simp [step] at h
    case dropS => simp [step] at h
    case downgradeOp => simp [step] at h
    case cloneW =>
      simp only [step, Weak.clone] at h
      rw [if_neg (by omega : ¬ (w + 1 = 0))] at h
      by_cases hg : usizeMax / 2 < w + 1
      · rw [if_pos hg] at h
        simp at h
      · rw [if_neg hg] at h
        simp only [Option.some.injEq] at h
        subst h
        refine ⟨Or.inr (Or.inl ⟨w + 1, by omega, ?_⟩), by dsimp only; omega⟩
        rw [wrap_succ (by omega)]
    case dropW =>
      simp only [step, Weak.drop] at h
      rw [if_neg (by omega : ¬ (w + 1 = 0))] at h
      by_cases hlast : w + 1 = 1
      · rw [if_pos hlast] at h
        simp only [Option.some.injEq] at h
        subst h
        refine ⟨Or.inr (Or.inr ?_), by dsimp only; omega⟩
        simp only [Sys.mk.injEq, eq_self_iff_true, and_true, true_and]
        all_goals omega
      · rw [if_neg hlast] at h
        simp only [Option.some.injEq] at h
        subst h
        refine ⟨Or.inr (Or.inl ⟨w - 1, by omega, ?_⟩), by dsimp only; omega⟩
        rw [wrap_pred (by omega) (by omega)]
        simp only [Sys.mk.injEq, Data.mk.injEq, Option.some.injEq,
          eq_self_iff_true, and_true, true_and, and_self]
        all_goals omega
    case upgradeOp =>
      simp only [step, Weak.upgrade] at h
      rw [if_neg (by omega : ¬ (w + 1 = 0))] at h
      rw [if_pos trivial] at h
      simp only [Option.some.injEq] at h
      subst h
      exact ⟨Or.inr (Or.inl ⟨w, by omega, rfl⟩), by dsimp only; omega⟩
  · -- phase 3: everything freed; no operation is enabled
    simp [step] at h

theorem exec_inv {T : Type} (v : T) :
    ∀ (ops : List Op) (s s2 : Sys T), Inv v s →
      (Op.downgradeOp ∈ ops → s.weaks + ops.length + 1 ≤ usizeMax) →
      exec ops s = Option.some s2 →
      Inv v s2 ∧ s2.weaks ≤ s.weaks + ops.length := by
  intro ops
  induction ops with
  | nil =>
    intro s s2 h1 _ h3
    simp only [exec, Option.some.injEq] at h3
    subst h3
    simpa using h1
  | cons o os ih =>
    intro s s2 h1 h2 h3
    simp only [exec] at h3
    cases hstep : step s o with
    | none =>
      rw [hstep] at h3
      simp at h3
    | some s1 =>
      rw [hstep] at h3
      have hwcond : o = Op.downgradeOp → s.weaks + 2 ≤ usizeMax := by
        intro ho
        subst ho
        have h4 := h2 (List.mem_cons_self _ _)
        simp only [List.length_cons] at h4
        omega
      obtain ⟨hinv1, hwk⟩ := step_inv v s s1 o hwcond h1 hstep
      have hmem2 : Op.downgradeOp ∈ os → s1.weaks + os.length + 1 ≤ usizeMax := by
        intro hm
        have h4 := h2 (List.mem_cons_of_mem _ hm)
        simp only [List.length_cons] at h4
        omega
      obtain ⟨hinv2, hwk2⟩ := ih s1 s2 hinv1 hmem2 h3
      refine ⟨hinv2, ?_⟩
      simp only [List.length_cons]
      omega


theorem husize_lt : usizeMax < USIZE := by decide

theorem weak_drop_freed_iff {T : Type} (d : Data T) :
    Weak.drop d = WDropResult.freed ↔ d.alloc_count = 1 := by
  simp only [Weak.drop]
  by_cases h : d.alloc_count = 1
  · rw [if_pos h]
    simp [h]
  · rw [if_neg h]
    simp [h]

/-- Claim C1: starting from `Arc::new value` and running any finite sequence
of handle operations (strong clone/drop and weak clone/drop as the claim
lists them, plus downgrade and upgrade so that weak handles can exist at
all), in every reachable state the payload's destructor has run exactly once
if the last strong handle has been dropped and zero times otherwise — so it
runs exactly once, at the drop of the last strong handle — and the control
block's memory has been freed exactly once if additionally the last weak
unit is gone and zero times otherwise; a free implies the payload was
already destroyed.  Sequences containing downgrade carry a length bound of
`usize::MAX` because downgrade has no overflow guard (see claim C8's
counterexample): enough unmatched downgrades would wrap `alloc_count`; for
the claim's own operation set of strong/weak clone and drop the hypothesis
is vacuous and every finite sequence is covered. -/
theorem payload_destroyed_once_and_memory_freed_once
    {T : Type} (v : T) (ops : List Op) (s : Sys T)
    (hlen : Op.downgradeOp ∈ ops → ops.length < usizeMax)
    (h : exec ops (init v) = Option.some s) :
    (s.drops = if s.strongs = 0 then 1 else 0)
    ∧ (s.frees = if s.strongs = 0 ∧ s.weaks = 0 then 1 else 0)
    ∧ (s.frees = 1 → s.drops = 1) := by
  have h0 : Inv v (init v) := Or.inl ⟨0, 0, by decide, by decide, rfl⟩
  have h1 : Op.downgradeOp ∈ ops → (init v).weaks + ops.length + 1 ≤ usizeMax := by
    intro hm
    have h2 := hlen hm
    show 0 + ops.length + 1 ≤ usizeMax
    omega
  obtain ⟨hinv, -⟩ := exec_inv v ops (init v) s h0 h1 h
  rcases hinv with ⟨k, w, hk, hwB, rfl⟩ | ⟨w, hwB, rfl⟩ | rfl
  · refine ⟨?_, ?_, ?_⟩
    · dsimp only
      rw [if_neg (by omega : ¬ (k + 1 = 0))]
    · dsimp only
      rw [if_neg (by omega : ¬ (k + 1 = 0 ∧ w = 0))]
    · dsimp only
      exact id
  · refine ⟨?_, ?_, ?_⟩
    · dsimp only
      rw [if_pos rfl]
    · dsimp only
      rw [if_neg (by omega : ¬ ((0 : Nat) = 0 ∧ w + 1 = 0))]
    · dsimp only
      intro hc
      rfl
  · refine ⟨?_, ?_, ?_⟩
    · dsimp only
      rw [if_pos rfl]
    · dsimp only
      rw [if_pos ⟨rfl, rfl⟩]
    · dsimp only
      intro hc
      rfl

theorem payload_destroyed_once_and_memory_freed_once_witness :
    ([Op.cloneS, Op.dropS, Op.downgradeOp, Op.dropS, Op.dropW] : List Op).length < usizeMax
    ∧ (({ strongs := 0, weaks := 0, block := Option.none, drops := 1, frees := 1 } : Sys Nat).drops
        = if ({ strongs := 0, weaks := 0, block := Option.none, drops := 1, frees := 1 } : Sys Nat).strongs = 0 then 1 else 0)
    ∧ (({ strongs := 0, weaks := 0, block := Option.none, drops := 1, frees := 1 } : Sys Nat).frees
        = if ({ strongs := 0, weaks := 0, block := Option.none, drops := 1, frees := 1 } : Sys Nat).strongs = 0
            ∧ ({ strongs := 0, weaks := 0, block := Option.none, drops := 1, frees := 1 } : Sys Nat).weaks = 0 then 1 else 0) :=
  ⟨by decide,
    (payload_destroyed_once_and_memory_freed_once (7 : Nat)
      [Op.cloneS, Op.dropS, Op.downgradeOp, Op.dropS, Op.dropW]
      { strongs := 0, weaks := 0, block := Option.none, drops := 1, frees := 1 }
      (by decide) (by decide)).1,
    (payload_destroyed_once_and_memory_freed_once (7 : Nat)
      [Op.cloneS, Op.dropS, Op.downgradeOp, Op.dropS, Op.dropW]
      { strongs := 0, weaks := 0, block := Option.none, drops := 1, frees := 1 }
      (by decide) (by decide)).2.1⟩

/-- Claim C2: `upgrade` returns `None` exactly when the observed strong
count is zero — in particular always after all strong handles are gone,
whatever weak handles remain — and otherwise (within the overflow guard) it
returns a new strong handle having moved the strong count from `n` to
`n + 1`; a successful upgrade never starts from a zero count. -/
theorem upgrade_none_iff_strong_zero {T : Type} (d : Data T) :
    (Weak.upgrade d = UpResult.fail d ↔ d.arc_count = 0)
    ∧ (d.arc_count ≠ 0 → d.arc_count ≤ usizeMax / 2 →
        Weak.upgrade d = UpResult.success { d with arc_count := d.arc_count + 1 })
    ∧ (∀ d2, Weak.upgrade d = UpResult.success d2 →
        d.arc_count ≠ 0 ∧ d2.arc_count = d.arc_count + 1) := by
  refine ⟨⟨?_, ?_⟩, ?_, ?_⟩
  · intro h
    by_contra hne
    simp only [Weak.upgrade] at h
    rw [if_neg hne] at h
    by_cases hg : usizeMax / 2 < d.arc_count
    · rw [if_pos hg] at h
      exact UpResult.noConfusion h
    · rw [if_neg hg] at h
      exact UpResult.noConfusion h
  · intro h
    simp only [Weak.upgrade]
    rw [if_pos h]
  · intro h1 h2
    simp only [Weak.upgrade]
    rw [if_neg h1, if_neg (by omega : ¬ usizeMax / 2 < d.arc_count)]
  · intro d2 h
    simp only [Weak.upgrade] at h
    by_cases hz : d.arc_count = 0
    · rw [if_pos hz] at h
      exact UpResult.noConfusion h
    · rw [if_neg hz] at h
      by_cases hg : usizeMax / 2 < d.arc_count
      · rw [if_pos hg] at h
        exact UpResult.noConfusion h
      · rw [if_neg hg] at h
        have := UpResult.success.inj h
        subst this
        exact ⟨hz, rfl⟩

theorem upgrade_none_iff_strong_zero_witness :
    Weak.upgrade { arc_count := 2, alloc_count := 1, data := Option.some (3 : Nat) }
      = UpResult.success { arc_count := 3, alloc_count := 1, data := Option.some (3 : Nat) } :=
  (upgrade_none_iff_strong_zero
    { arc_count := 2, alloc_count := 1, data := Option.some (3 : Nat) }).2.1
    (by decide) (by decide)

/-- Claim C3: dropping a strong handle decrements the strong count by one;
iff the pre-decrement value was exactly 1 the payload is destroyed in place
and one implicit weak unit is released by decrementing the alloc count with
the weak-drop protocol (freeing the block when that unit was the last); a
non-terminal strong drop changes nothing but the strong count. -/
theorem arc_drop_last_destroys_payload {T : Type} (d : Data T) :
    (1 < d.arc_count → d.arc_count ≤ usizeMax →
      Arc.drop d = ADropResult.live { d with arc_count := d.arc_count - 1 })
    ∧ (d.arc_count = 1 → 1 < d.alloc_count → d.alloc_count ≤ usizeMax →
      Arc.drop d = ADropResult.destroyed
        { arc_count := 0, alloc_count := d.alloc_count - 1, data := Option.none })
    ∧ (d.arc_count = 1 → d.alloc_count = 1 → Arc.drop d = ADropResult.freedAll) := by
  refine ⟨?_, ?_, ?_⟩
  · intro h1 h2
    simp only [Arc.drop]
    rw [if_neg (by omega : ¬ d.arc_count = 1)]
    rw [wrap_pred (by omega) (by have := husize_lt; omega)]
  · intro h1 h2 h3
    simp only [Arc.drop, Weak.drop]
    rw [if_pos h1]
    rw [if_neg (by omega : ¬ d.alloc_count = 1)]
    rw [wrap_pred (by omega) (by have := husize_lt; omega)]
  · intro h1 h2
    simp only [Arc.drop, Weak.drop]
    rw [if_pos h1, if_pos h2]

theorem arc_drop_last_destroys_payload_witness :
    Arc.drop { arc_count := 1, alloc_count := 2, data := Option.some (5 : Nat) }
      = ADropResult.destroyed { arc_count := 0, alloc_count := 1, data := Option.none } :=
  (arc_drop_last_destroys_payload
    { arc_count := 1, alloc_count := 2, data := Option.some (5 : Nat) }).2.1
    (by decide) (by decide) (by decide)

/-- Claim C4: dropping a weak handle frees the control block's backing
memory iff the pre-decrement alloc count was exactly 1; otherwise only the
alloc count changes, down by one; and in any reachable state in which a live
weak handle's drop would free the block, the payload has already been
destroyed. -/
theorem weak_drop_frees_iff_last {T : Type} (v : T) (ops : List Op) (s : Sys T)
    (d : Data T)
    (hlen : Op.downgradeOp ∈ ops → ops.length < usizeMax)
    (hexec : exec ops (init v) = Option.some s)
    (hblock : s.block = Option.some d) :
    (Weak.drop d = WDropResult.freed ↔ d.alloc_count = 1)
    ∧ (1 < d.alloc_count →
        Weak.drop d = WDropResult.live { d with alloc_count := d.alloc_count - 1 })
    ∧ (1 ≤ s.weaks → Weak.drop d = WDropResult.freed → d.data = Option.none) := by
  have h0 : Inv v (init v) := Or.inl ⟨0, 0, by decide, by decide, rfl⟩
  have h1 : Op.downgradeOp ∈ ops → (init v).weaks + ops.length + 1 ≤ usizeMax := by
    intro hm
    have h2 := hlen hm
    show 0 + ops.length + 1 ≤ usizeMax
    omega
  obtain ⟨hinv, -⟩ := exec_inv v ops (init v) s h0 h1 hexec
  rcases hinv with ⟨k, w, hk, hwB, rfl⟩ | ⟨w, hwB, rfl⟩ | rfl
  · simp only [Option.some.injEq] at hblock
    subst hblock
    refine ⟨weak_drop_freed_iff _, ?_, ?_⟩
    · intro hgt
      have hgt2 : 1 < w + 1 := hgt
      simp only [Weak.drop]
      rw [if_neg (by omega : ¬ (w + 1 = 1))]
      rw [wrap_pred (by omega) (by have := husize_lt; omega)]
    · intro hwk hfreed
      have h5 : w + 1 = 1 := (weak_drop_freed_iff _).mp hfreed
      have h6 : 1 ≤ w := hwk
      omega
  · simp only [Option.some.injEq] at hblock
    subst hblock
    refine ⟨weak_drop_freed_iff _, ?_, ?_⟩
    · intro hgt
      have hgt2 : 1 < w + 1 := hgt
      simp only [Weak.drop]
      rw [if_neg (by omega : ¬ (w + 1 = 1))]
      rw [wrap_pred (by omega) (by have := husize_lt; omega)]
    · intro hwk hfreed
      rfl
  · exact Option.noConfusion hblock

theorem weak_drop_frees_iff_last_witness :
    Weak.drop { arc_count := 1, alloc_count := 2, data := Option.some (7 : Nat) }
      = WDropResult.live { arc_count := 1, alloc_count := 1, data := Option.some (7 : Nat) } :=
  (weak_drop_frees_iff_last (7 : Nat) [Op.downgradeOp]
    { strongs := 1, weaks := 1,
      block := Option.some { arc_count := 1, alloc_count := 2, data := Option.some 7 },
      drops := 0, frees := 0 }
    { arc_count := 1, alloc_count := 2, data := Option.some 7 }
    (by decide) (by decide) rfl).2.1 (by decide)


/-- Claim C5: `Arc::new v` builds a fresh control block with strong count 1,
alloc count 1 and payload storage initialized from `v`, and the initial
system state is a single strong handle on that block; construction is a
total function — there is no error path. -/
theorem arc_new_fresh_block {T : Type} (v : T) :
    (Arc.new v).arc_count = 1
    ∧ (Arc.new v).alloc_count = 1
    ∧ (Arc.new v).data = Option.some v
    ∧ init v = { strongs := 1, weaks := 0, block := Option.some (Arc.new v), drops := 0, frees := 0 } :=
  ⟨rfl, rfl, rfl, rfl⟩

/-- Claim C6: strong clone increments the strong count by exactly one and
weak clone the alloc count by exactly one (fetch-and-add), changing nothing
else; if the pre-increment value exceeds `usize::MAX / 2` the clone aborts
the process instead of returning a handle. -/
theorem clone_increments_or_aborts {T : Type} (d : Data T) :
    (d.arc_count ≤ usizeMax / 2 →
      Arc.clone d = Res.ok { d with arc_count := d.arc_count + 1 })
    ∧ (usizeMax / 2 < d.arc_count → Arc.clone d = Res.abort)
    ∧ (d.alloc_count ≤ usizeMax / 2 →
      Weak.clone d = Res.ok { d with alloc_count := d.alloc_count + 1 })
    ∧ (usizeMax / 2 < d.alloc_count → Weak.clone d = Res.abort) := by
  have hhalf : usizeMax / 2 + 2 < USIZE := by decide
  refine ⟨?_, ?_, ?_, ?_⟩
  · intro h
    simp only [Arc.clone]
    rw [if_neg (by omega : ¬ usizeMax / 2 < d.arc_count)]
    rw [wrap_succ (by omega)]
  · intro h
    simp only [Arc.clone]
    rw [if_pos h]
  · intro h
    simp only [Weak.clone]
    rw [if_neg (by omega : ¬ usizeMax / 2 < d.alloc_count)]
    rw [wrap_succ (by omega)]
  · intro h
    simp only [Weak.clone]
    rw [if_pos h]

theorem clone_increments_or_aborts_witness :
    Arc.clone { arc_count := 1, alloc_count := 1, data := Option.some (4 : Nat) }
      = Res.ok { arc_count := 2, alloc_count := 1, data := Option.some (4 : Nat) } :=
  (clone_increments_or_aborts
    { arc_count := 1, alloc_count := 1, data := Option.some (4 : Nat) }).1 (by decide)

/-- Claim C7 (counterexample to the claim as stated): at an observed strong
count of `2 ^ 63 > usize::MAX / 2`, upgrade does not terminate the process
by `abort`: it fails the `assert!` and panics. -/
theorem upgrade_overflow_not_abort_cex :
    Weak.upgrade { arc_count := 9223372036854775808, alloc_count := 1, data := Option.some (0 : Nat) } = UpResult.panicked
    ∧ Weak.upgrade { arc_count := 9223372036854775808, alloc_count := 1, data := Option.some (0 : Nat) } ≠ UpResult.aborted :=
  ⟨by decide, by decide⟩

/-- Claim C7 (amended): when upgrade observes a strong count exceeding
`usize::MAX / 2`, the overflow is fatal in the sense that no handle and no
error value is returned — the operation fails its assertion and panics —
but the mechanism is a panic, not the `abort()` call used on the clone
paths. -/
theorem upgrade_overflow_panics {T : Type} (d : Data T)
    (h : usizeMax / 2 < d.arc_count) :
    Weak.upgrade d = UpResult.panicked ∧ Weak.upgrade d ≠ UpResult.aborted := by
  have h2 : Weak.upgrade d = UpResult.panicked := by
    simp only [Weak.upgrade]
    rw [if_neg (by omega : ¬ d.arc_count = 0), if_pos h]
  refine ⟨h2, ?_⟩
  rw [h2]
  exact fun hc => UpResult.noConfusion hc

theorem upgrade_overflow_panics_witness :
    usizeMax / 2 <
      ({ arc_count := 9223372036854775808, alloc_count := 1, data := Option.some (0 : Nat) } : Data Nat).arc_count
    ∧ Weak.upgrade ({ arc_count := 9223372036854775808, alloc_count := 1, data := Option.some (0 : Nat) } : Data Nat) = UpResult.panicked :=
  ⟨by decide,
    (upgrade_overflow_panics { arc_count := 9223372036854775808, alloc_count := 1, data := Option.some (0 : Nat) } (by decide)).1⟩

/-- Claim C8 (counterexample to the claim as stated): with the alloc count
at `2 ^ 63 > usize::MAX / 2`, downgrade neither aborts nor fails — it
increments the counter and returns a new weak handle, because the source
has no overflow guard on this path. -/
theorem downgrade_overflow_not_abort_cex :
    Arc.downgrade { arc_count := 1, alloc_count := 9223372036854775808, data := Option.some (0 : Nat) }
      = Res.ok { arc_count := 1, alloc_count := 9223372036854775809, data := Option.some (0 : Nat) }
    ∧ Arc.downgrade { arc_count := 1, alloc_count := 9223372036854775808, data := Option.some (0 : Nat) } ≠ Res.abort :=
  ⟨by decide, by decide⟩

/-- Claim C8 (amended): downgrade increments the alloc count by exactly one
via its compare-and-swap retry loop and returns a new weak handle; it never
aborts — there is no overflow guard on this path (at the top of the range
the increment would simply wrap modulo `2 ^ 64`). -/
theorem downgrade_increments_alloc {T : Type} (d : Data T) :
    (d.alloc_count < usizeMax →
      Arc.downgrade d = Res.ok { d with alloc_count := d.alloc_count + 1 })
    ∧ Arc.downgrade d ≠ Res.abort := by
  refine ⟨?_, ?_⟩
  · intro h
    simp only [Arc.downgrade]
    rw [wrap_succ (by have := husize_lt; omega)]
  · intro hc
    exact Res.noConfusion hc

theorem downgrade_increments_alloc_witness :
    Arc.downgrade { arc_count := 1, alloc_count := 1, data := Option.some (9 : Nat) }
      = Res.ok { arc_count := 1, alloc_count := 2, data := Option.some (9 : Nat) } :=
  (downgrade_increments_alloc
    { arc_count := 1, alloc_count := 1, data := Option.some (9 : Nat) }).1 (by decide)

/-- Claim C9: deref on a freshly constructed handle yields the constructed
value, and strong clone, weak clone, downgrade and successful upgrade never
modify the payload, so deref after any of them equals deref before. -/
theorem deref_preserved_by_handle_ops {T : Type} (v : T) (d d2 : Data T) :
    Arc.deref (Arc.new v) = Option.some v
    ∧ (Arc.clone d = Res.ok d2 → Arc.deref d2 = Arc.deref d)
    ∧ (Weak.clone d = Res.ok d2 → Arc.deref d2 = Arc.deref d)
    ∧ (Arc.downgrade d = Res.ok d2 → Arc.deref d2 = Arc.deref d)
    ∧ (Weak.upgrade d = UpResult.success d2 → Arc.deref d2 = Arc.deref d) := by
  refine ⟨rfl, ?_, ?_, ?_, ?_⟩
  · intro h
    simp only [Arc.clone] at h
    by_cases hg : usizeMax / 2 < d.arc_count
    · rw [if_pos hg] at h
      exact Res.noConfusion h
    · rw [if_neg hg] at h
      have := Res.ok.inj h
      subst this
      rfl
  · intro h
    simp only [Weak.clone] at h
    by_cases hg : usizeMax / 2 < d.alloc_count
    · rw [if_pos hg] at h
      exact Res.noConfusion h
    · rw [if_neg hg] at h
      have := Res.ok.inj h
      subst this
      rfl
  · intro h
    simp only [Arc.downgrade] at h
    have := Res.ok.inj h
    subst this
    rfl
  · intro h
    simp only [Weak.upgrade] at h
    by_cases hz : d.arc_count = 0
    · rw [if_pos hz] at h
      exact UpResult.noConfusion h
    · rw [if_neg hz] at h
      by_cases hg : usizeMax / 2 < d.arc_count
      · rw [if_pos hg] at h
        exact UpResult.noConfusion h
      · rw [if_neg hg] at h
        have := UpResult.success.inj h
        subst this
        rfl

theorem deref_preserved_by_handle_ops_witness :
    Arc.deref { arc_count := 2, alloc_count := 1, data := Option.some (7 : Nat) }
      = Arc.deref { arc_count := 1, alloc_count := 1, data := Option.some (7 : Nat) } :=
  (deref_preserved_by_handle_ops (7 : Nat)
    { arc_count := 1, alloc_count := 1, data := Option.some 7 }
    { arc_count := 2, alloc_count := 1, data := Option.some 7 }).2.2.2.2 (by decide)

/-- Claim C10: upgrade modifies only the strong count — on success the alloc
count and payload are unchanged and the strong count goes up by exactly one,
and an upgrade that returns `None` leaves the control block exactly as it
was — while downgrade modifies only the alloc count, leaving the strong
count and payload unchanged. -/
theorem upgrade_downgrade_frame {T : Type} (d d2 : Data T) :
    (Weak.upgrade d = UpResult.success d2 →
      d2.alloc_count = d.alloc_count ∧ d2.data = d.data
        ∧ d2.arc_count = d.arc_count + 1)
    ∧ (Weak.upgrade d = UpResult.fail d2 → d2 = d)
    ∧ (Arc.downgrade d = Res.ok d2 →
      d2.arc_count = d.arc_count ∧ d2.data = d.data) := by
  refine ⟨?_, ?_, ?_⟩
  · intro h
    simp only [Weak.upgrade] at h
    by_cases hz : d.arc_count = 0
    · rw [if_pos hz] at h
      exact UpResult.noConfusion h
    · rw [if_neg hz] at h
      by_cases hg : usizeMax / 2 < d.arc_count
      · rw [if_pos hg] at h
        exact UpResult.noConfusion h
      · rw [if_neg hg] at h
        have := UpResult.success.inj h
        subst this
        exact ⟨rfl, rfl, rfl⟩
  · intro h
    simp only [Weak.upgrade] at h
    by_cases hz : d.arc_count = 0
    · rw [if_pos hz] at h
      exact (UpResult.fail.inj h).symm
    · rw [if_neg hz] at h
      by_cases hg : usizeMax / 2 < d.arc_count
      · rw [if_pos hg] at h
        exact UpResult.noConfusion h
      · rw [if_neg hg] at h
        exact UpResult.noConfusion h
  · intro h
    simp only [Arc.downgrade] at h
    have := Res.ok.inj h
    subst this
    exact ⟨rfl, rfl⟩

theorem upgrade_downgrade_frame_witness :
    ({ arc_count := 2, alloc_count := 3, data := Option.some (5 : Nat) } : Data Nat).alloc_count
        = ({ arc_count := 1, alloc_count := 3, data := Option.some (5 : Nat) } : Data Nat).alloc_count
    ∧ ({ arc_count := 2, alloc_count := 3, data := Option.some (5 : Nat) } : Data Nat).data
        = ({ arc_count := 1, alloc_count := 3, data := Option.some (5 : Nat) } : Data Nat).data
    ∧ ({ arc_count := 2, alloc_count := 3, data := Option.some (5 : Nat) } : Data Nat).arc_count
        = ({ arc_count := 1, alloc_count := 3, data := Option.some (5 : Nat) } : Data Nat).arc_count + 1 :=
  (upgrade_downgrade_frame
    { arc_count := 1, alloc_count := 3, data := Option.some (5 : Nat) }
    { arc_count := 2, alloc_count := 3, data := Option.some (5 : Nat) }).1 (by decide)

end RustArc
